import Mathlib

/-!
Verification of the IctQuoteBot posting bot (`bot_run.py`) against its
natural-language specification.

The file is a shallow embedding of the program's core logic:

* the tweets-file block parser `load_blocks` (source lines 85-105),
* the block deletion routine `delete_block` (source lines 107-121) together
  with the write/read round trip of `write_lines`/`read_lines`
  (source lines 54-61),
* the daily slot planner `plan_slots_for_today` (source lines 157-185),
* the daily-plan persistence `ensure_plan` (source lines 135-150),
* the due-slot lookup `find_due_slot` (source lines 187-194),
* the posting loop `post_random_block` (source lines 222-255) and the
  dispatch in `main` (source lines 258-274).

A file's contents are represented as the list of its lines (the result of
Python `splitlines`), so every string in such a list is newline-free.
Wall-clock times are represented as minutes; formatted times are strings
as in the source.  The process-wide random source is modelled by an
explicit oracle: a list of naturals, one consumed per `random.randrange`
call, reduced modulo the requested bound, so every sequence of outcomes
the program can see corresponds to some oracle and vice versa.
-/

namespace IctQuoteBot

/-! ### Python string primitives

`pyStrip` models Python `str.strip()` (remove leading and trailing
whitespace) and `pyRstrip` models `str.rstrip()`. -/

def stripChars (cs : List Char) : List Char :=
  ((cs.dropWhile Char.isWhitespace).reverse.dropWhile Char.isWhitespace).reverse

def pyStrip (s : String) : String :=
  String.mk (stripChars s.data)

def pyRstrip (s : String) : String :=
  String.mk ((s.data.reverse.dropWhile Char.isWhitespace).reverse)

/-- A line acts as a block separator when it strips to `---`
(source line 98 and lines 117-119 test `ln.strip() == "---"`). -/
def isDelim (s : String) : Bool :=
  pyStrip s == "---"

/-! ### The block store (`load_blocks`, source lines 85-105) -/

/-- A content block: the normalized single-line text plus the raw lines
(source line 94 `{"text": normalized, "raw": buf.copy()}`). -/
structure Block where
  text : String
  raw : List String
deriving DecidableEq, Repr

/-- `normalized = " ".join(s.strip() for s in buf if s.strip())`
(source line 92). -/
def normalize (buf : List String) : String :=
  String.intercalate " " (((buf.map pyStrip).filter (fun s => s ≠ "")))

/-- The `flush` closure of `load_blocks` (source lines 90-95): an empty
buffer, or one whose normalization is empty, yields no block. -/
def flushBuf (buf : List String) : List Block :=
  if buf = [] then []
  else if normalize buf = "" then []
  else [⟨normalize buf, buf⟩]

/-- The line loop of `load_blocks` (source lines 97-102): delimiter lines
flush the buffer, other lines are appended to it, and the buffer is
flushed once more at end of file. -/
def parseAux : List String → List String → List Block
  | buf, [] => flushBuf buf
  | buf, ln :: rest =>
    if isDelim ln then flushBuf buf ++ parseAux [] rest
    else parseAux (buf ++ [ln]) rest

/-- The blocks parsed from a file's lines. -/
def loadBlocksLines (lines : List String) : List Block :=
  parseAux [] lines

/-- `load_blocks` (source lines 85-105): parsing an empty block list is an
error (source lines 103-104 raise `ValueError`). -/
def load_blocks (lines : List String) : Except String (List Block) :=
  let blocks := loadBlocksLines lines
  if blocks = [] then
    .error "No tweet blocks found in tweets.txt (use '---' separators)."
  else
    .ok blocks

/-! ### Spec-side parser (for the parsing refinement claim)

Modelled from the spec's words (section 4.2): the input is split on
delimiter lines; each maximal run of lines between delimiters that still
has content after stripping blank lines becomes one block, retaining its
raw lines verbatim alongside the normalized display string. -/

/-- Maximal runs of non-delimiter lines between delimiter lines
(the runs at the two ends included; empty runs kept). -/
def splitRuns : List String → List (List String)
  | [] => [[]]
  | ln :: rest =>
    match splitRuns rest with
    | [] => [[]]
    | r :: rs => if isDelim ln then [] :: r :: rs else (ln :: r) :: rs

/-- A run becomes a block exactly when its normalization is non-blank. -/
def runToBlock (run : List String) : Option Block :=
  if normalize run = "" then none else some ⟨normalize run, run⟩

/-- Spec-side parsing contract: split into runs, keep the non-blank ones. -/
def parse_spec (lines : List String) : List Block :=
  (splitRuns lines).filterMap runToBlock

/-! ### Block deletion (`delete_block`, source lines 107-121) -/

/-- The search loop of `delete_block` (source lines 110-113): the first
index `i` with `lines[i+k] == raw_block[k]` for all `k`.  For
`raw.length > lines.length` the Python range is empty and nothing
matches; for `raw = []` every file matches at index 0. -/
def findBlockIdx (lines raw : List String) : Option Nat :=
  if raw.length ≤ lines.length then
    (List.range (lines.length - raw.length + 1)).find?
      (fun i => (lines.drop i).take raw.length == raw)
  else
    none

/-- The line-level result of `delete_block` (source lines 114-121): if no
match, the lines are unchanged (and nothing is written); otherwise the
matched range is widened by the delimiter just before it if present, else
by the delimiter just after it, and the widened range is excised. -/
def delete_block (lines raw : List String) : List String :=
  match findBlockIdx lines raw with
  | none => lines
  | some i =>
    let m := raw.length
    if 0 < i ∧ isDelim (lines.getD (i - 1) "") = true then
      lines.take (i - 1) ++ lines.drop (i + m)
    else if i + m < lines.length ∧ isDelim (lines.getD (i + m) "") = true then
      lines.take i ++ lines.drop (i + m + 1)
    else
      lines.take i ++ lines.drop (i + m)

/-- The write/read round trip of `write_lines` then `read_lines`
(source lines 54-61): `"\n".join(lines).rstrip() + "\n"` drops trailing
all-whitespace lines, right-strips the last remaining line, and an
entirely blank non-empty file reads back as a single empty line. -/
def persistLines (lines : List String) : List String :=
  match lines with
  | [] => []
  | _ :: _ =>
    match lines.reverse.dropWhile (fun l => pyStrip l == "") with
    | [] => [""]
    | last :: restRev => (pyRstrip last :: restRev).reverse

/-- `delete_block` at the file level: on a miss only a warning is printed
and the file is untouched; on a hit the spliced lines are written back
through `write_lines` (source line 121). -/
def delete_block_file (lines raw : List String) : List String :=
  match findBlockIdx lines raw with
  | none => lines
  | some _ => persistLines (delete_block lines raw)

/-! ### The slot planner (`plan_slots_for_today`, source lines 157-185) -/

/-- Two-digit zero-padded decimal rendering, as in `strftime` fields
`%H` and `%M` (both arguments of the planner are below 100). -/
def twoDigits (n : Nat) : String :=
  String.mk [Char.ofNat (48 + n / 10 % 10), Char.ofNat (48 + n % 10)]

/-- `dt.strftime("%H:%M")` for a time `m` minutes after midnight
(source line 185). -/
def fmtHM (m : Nat) : String :=
  twoDigits (m / 60) ++ ":" ++ twoDigits (m % 60)

/-- Code-point lexicographic order on strings, the order Python `sorted`
uses on `str` values. -/
def lexLt : List Char → List Char → Bool
  | [], [] => false
  | [], _ :: _ => true
  | _ :: _, [] => false
  | a :: as, b :: bs => if a < b then true else if b < a then false else lexLt as bs

def strLe (a b : String) : Bool :=
  !(lexLt b.data a.data)

def insertSorted (x : String) : List String → List String
  | [] => [x]
  | y :: ys => if strLe x y then x :: y :: ys else y :: insertSorted x ys

/-- Python `sorted` on a list of strings (ascending, source line 185). -/
def sortStrings : List String → List String
  | [] => []
  | x :: xs => insertSorted x (sortStrings xs)

/-- The pick loop of `plan_slots_for_today` (source lines 177-182):
while candidates remain and fewer than `SLOTS_PER_DAY` picks were made,
pop a random candidate (the oracle value mod the pool size models
`random.randrange(len(candidates))`) and discard every remaining
candidate within `min_gap_minutes` of it.  The fuel is the number of
picks still wanted; `t.replace(second=0, microsecond=0)` is the identity
at minute granularity.  Candidate times are minutes after midnight. -/
def pickLoop (gap : Nat) : Nat → List Nat → List Nat → List Nat → List Nat
  | 0, _, _, picks => picks
  | fuel + 1, oracle, cands, picks =>
    match cands with
    | [] => picks
    | _ :: _ =>
      let idx := oracle.headD 0 % cands.length
      let t := cands.getD idx 0
      let cands' := (cands.eraseIdx idx).filter (fun c => gap ≤ Nat.dist c t)
      pickLoop gap fuel oracle.tail cands' (picks ++ [t])

/-- The `ValueError` message of the feasibility check
(source lines 166-170). -/
def planErrMsg (sh eh slots gap maxSlots : Nat) : String :=
  "Window " ++ toString sh ++ ":00-" ++ toString eh ++ ":59 ET too narrow for "
    ++ toString slots ++ " slots at " ++ toString gap
    ++ "-minute gaps (max " ++ toString maxSlots
    ++ "). Widen the window or reduce SLOTS_PER_DAY."

/-- `plan_slots_for_today` (source lines 157-185) for the window
`[sh:00, eh:59]` (requires `sh ≤ eh` for the subtraction to match
Python), `slots = SLOTS_PER_DAY` and minimum gap `gap`: feasibility
check, then the random pick loop, then the formatted picks sorted as
strings. -/
def plan_slots_for_today (sh eh slots gap : Nat) (oracle : List Nat) :
    Except String (List String) :=
  let start := sh * 60
  let endMin := eh * 60 + 59
  let span := endMin - start + 1
  let maxSlots := span / gap + 1
  if maxSlots < slots then
    .error (planErrMsg sh eh slots gap maxSlots)
  else
    let candidates := (List.range span).map (fun i => start + i)
    let picks := pickLoop gap slots oracle candidates []
    .ok (sortStrings (picks.map fmtHM))

/-! ### Persistent state (`.post_state.json`, source lines 123-150) -/

/-- One entry of the append-only log (source line 248). -/
structure LogEntry where
  time : String
  text : String
  id : String
deriving DecidableEq, Repr

/-- The persisted state record: `date`, `planned`, `posted`, `log`
(source lines 140-145).  A fresh state (`load_state` of a missing file)
has `date = none` and empty lists. -/
structure BotState where
  date : Option String
  planned : List String
  posted : List String
  log : List LogEntry
deriving DecidableEq, Repr

/-- `ensure_plan` (source lines 135-150): regenerate when the stored date
is not today or no plan is stored, carrying the log over and resetting
`posted`; otherwise keep the state as is.  The boolean records whether
`save_state` was called. -/
def ensure_plan (sh eh slots gap : Nat) (oracle : List Nat) (today : String)
    (state : BotState) : Except String (BotState × Bool) :=
  if state.date ≠ some today ∨ state.planned = [] then
    match plan_slots_for_today sh eh slots gap oracle with
    | .error e => .error e
    | .ok ps =>
      .ok ({ date := some today, planned := ps, posted := [], log := state.log }, true)
  else
    .ok (state, false)

/-! ### Due-slot lookup (`find_due_slot`, source lines 187-194)

Times are minutes after midnight of the state's own date (the plan's
day); `now` is the current time on that scale. -/

/-- Parse a planned slot string `"HH:MM"` into minutes after midnight,
as `datetime.fromisoformat(state["date"] + f" {slot}:00")` does with the
time-of-day part; a malformed slot makes `fromisoformat` raise. -/
def parseHM (s : String) : Option Nat :=
  match s.data with
  | [h1, h2, c, m1, m2] =>
    if c = ':' ∧ h1.isDigit ∧ h2.isDigit ∧ m1.isDigit ∧ m2.isDigit then
      let h := (h1.toNat - 48) * 10 + (h2.toNat - 48)
      let m := (m1.toNat - 48) * 10 + (m2.toNat - 48)
      if h < 24 ∧ m < 60 then some (h * 60 + m) else none
    else none
  | _ => none

/-- A slot at `t` minutes is due at time `now` when `now` lies in
`[t, t + W]` (source line 192). -/
def dueAt (W now t : Nat) : Prop :=
  t ≤ now ∧ now ≤ t + W

instance (W now t : Nat) : Decidable (dueAt W now t) := by
  unfold dueAt; infer_instance

/-- The slot loop of `find_due_slot` (source lines 189-193): skip posted
slots, parse the rest, return the first due one. -/
def findDueAux (posted : List String) (W now : Nat) :
    List String → Except String (Option String)
  | [] => .ok none
  | slot :: rest =>
    if slot ∈ posted then findDueAux posted W now rest
    else
      match parseHM slot with
      | none => .error "invalid slot time"
      | some t =>
        if dueAt W now t then .ok (some slot)
        else findDueAux posted W now rest

/-- `find_due_slot` (source lines 187-194). -/
def find_due_slot (W now : Nat) (state : BotState) : Except String (Option String) :=
  findDueAux state.posted W now state.planned

/-! ### The posting loop (`post_random_block`, source lines 222-255) -/

/-- Python `str.isdigit()` restricted to ASCII digits: non-empty and all
digits (source line 244 `res.isdigit()`). -/
def isDigits (s : String) : Bool :=
  !s.data.isEmpty && s.data.all Char.isDigit

/-- An outcome of `post_to_x` (source lines 205-220) that is neither the
duplicate marker nor a tweet id: `None` (a 403 or unexpected exception)
or any non-digit string. -/
def isFailureRes : Option String → Bool
  | none => true
  | some s => !(s == "DUPLICATE") && !(isDigits s)

/-- What one invocation of `post_random_block` leaves behind: the return
value, the state, the in-memory block list, the tweets file, and how many
submission attempts (`post_to_x` calls) were made. -/
structure RunResult where
  res : Option String
  state : BotState
  blocks : List Block
  tfile : List String
  attempts : Nat
deriving Repr

/-- `post_random_block` (source lines 222-255).  The `rand` oracle feeds
`random.randrange(len(blocks))` (value mod pool size); the `api` oracle
gives the result of each `post_to_x` call in order (`some "DUPLICATE"`,
`some id`, any other string, or `none`).  The fuel starts at the number
of blocks: each loop iteration either returns or removes one block.  On a
duplicate the block is logged to `posted_tweets.txt` (not modelled),
deleted from the file and the pool, and the loop continues; on a digit id
the same removals happen, the state log grows and the id is returned; on
anything else the loop stops with `None` and nothing changes. -/
def post_random_block (nowIso : String) :
    Nat → List Nat → List (Option String) → BotState → List Block → List String → RunResult
  | 0, _, _, state, blocks, tf => ⟨none, state, blocks, tf, 0⟩
  | fuel + 1, rand, api, state, blocks, tf =>
    match blocks with
    | [] => ⟨none, state, blocks, tf, 0⟩
    | _ :: _ =>
      let idx := rand.headD 0 % blocks.length
      let blk := blocks.getD idx ⟨"", []⟩
      match api.headD none with
      | some r =>
        if r = "DUPLICATE" then
          let out := post_random_block nowIso fuel rand.tail api.tail state
            (blocks.eraseIdx idx) (delete_block_file tf blk.raw)
          { out with attempts := out.attempts + 1 }
        else if isDigits r then
          ⟨some r,
            { state with log := state.log ++ [⟨nowIso, blk.text, r⟩] },
            blocks.eraseIdx idx, delete_block_file tf blk.raw, 1⟩
        else
          ⟨none, state, blocks, tf, 1⟩
      | none => ⟨none, state, blocks, tf, 1⟩

/-- The due-slot branch of `main` (source lines 269-274): run the posting
loop; only a returned id appends the due slot to `posted`. -/
def runDueSlot (due nowIso : String) (rand : List Nat) (api : List (Option String))
    (state : BotState) (blocks : List Block) (tf : List String) : BotState × RunResult :=
  let out := post_random_block nowIso blocks.length rand api state blocks tf
  match out.res with
  | some _ => ({ out.state with posted := out.state.posted ++ [due] }, out)
  | none => (out.state, out)

/-! ### Parser lemmas -/

theorem normalize_nil : normalize [] = "" := rfl

theorem flushBuf_eq_filterMap (buf : List String) :
    flushBuf buf = List.filterMap runToBlock [buf] := by
  by_cases hb : buf = []
  · subst hb
    simp [flushBuf, runToBlock, normalize_nil]
  · by_cases hn : normalize buf = "" <;>
      simp [flushBuf, runToBlock, hb, hn]

theorem splitRuns_ne_nil (lines : List String) : splitRuns lines ≠ [] := by
  cases lines with
  | nil => simp [splitRuns]
  | cons ln rest =>
    rcases h : splitRuns rest with _ | ⟨r, rs⟩
    · simp [splitRuns, h]
    · by_cases hd : isDelim ln <;> simp [splitRuns, h, hd]

theorem filterMap_cons_flushBuf (buf : List String) (L : List (List String)) :
    List.filterMap runToBlock (buf :: L) = flushBuf buf ++ List.filterMap runToBlock L := by
  rw [← List.singleton_append, List.filterMap_append, ← flushBuf_eq_filterMap]

theorem parseAux_cons_delim (buf : List String) (ln : String) (rest : List String)
    (hd : isDelim ln = true) :
    parseAux buf (ln :: rest) = flushBuf buf ++ parseAux [] rest := by
  simp [parseAux, hd]

theorem parseAux_cons_nondelim (buf : List String) (ln : String) (rest : List String)
    (hd : isDelim ln = false) :
    parseAux buf (ln :: rest) = parseAux (buf ++ [ln]) rest := by
  simp [parseAux, hd]

theorem parseAux_splitRuns :
    ∀ (lines buf r : List String) (rs : List (List String)),
      splitRuns lines = r :: rs →
      parseAux buf lines = List.filterMap runToBlock ((buf ++ r) :: rs)
  | [], buf, r, rs, h => by
    simp only [splitRuns] at h
    cases h
    simpa [parseAux] using flushBuf_eq_filterMap buf
  | ln :: rest, buf, r, rs, h => by
    rcases hrest : splitRuns rest with _ | ⟨r', rs'⟩
    · exact absurd hrest (splitRuns_ne_nil rest)
    · simp only [splitRuns, hrest] at h
      by_cases hd : isDelim ln
      · rw [if_pos hd] at h
        injection h with h1 h2
        subst h1
        subst h2
        rw [parseAux_cons_delim buf ln rest hd,
          parseAux_splitRuns rest [] r' rs' hrest, List.nil_append, List.append_nil,
          filterMap_cons_flushBuf buf (r' :: rs')]
      · rw [if_neg hd] at h
        injection h with h1 h2
        subst h1
        subst h2
        rw [parseAux_cons_nondelim buf ln rest (eq_false_of_ne_true hd),
          parseAux_splitRuns rest (buf ++ [ln]) r' rs' hrest, List.append_assoc,
          List.singleton_append]

theorem loadBlocksLines_eq_parse_spec (lines : List String) :
    loadBlocksLines lines = parse_spec lines := by
  rcases h : splitRuns lines with _ | ⟨r, rs⟩
  · exact absurd h (splitRuns_ne_nil lines)
  · rw [loadBlocksLines, parse_spec, h, parseAux_splitRuns lines [] r rs h,
      List.nil_append]

theorem normalize_of_all_blank (buf : List String) (h : ∀ l ∈ buf, pyStrip l = "") :
    normalize buf = "" := by
  have hf : (buf.map pyStrip).filter (fun s => s ≠ "") = [] := by
    rw [List.filter_eq_nil_iff]
    intro s hs
    rcases List.mem_map.mp hs with ⟨l, hl, rfl⟩
    simp [h l hl]
  rw [normalize, hf]
  rfl

theorem flushBuf_wf (buf : List String) (hbuf : ∀ l ∈ buf, isDelim l = false) :
    ∀ b ∈ flushBuf buf, b.text ≠ "" ∧ ∀ l ∈ b.raw, isDelim l = false := by
  intro b hb
  simp only [flushBuf] at hb
  split at hb
  · simp at hb
  · split at hb
    · simp at hb
    · rename_i hn
      simp only [List.mem_singleton] at hb
      subst hb
      exact ⟨hn, hbuf⟩

theorem parseAux_wf (lines : List String) :
    ∀ (buf : List String), (∀ l ∈ buf, isDelim l = false) →
      ∀ b ∈ parseAux buf lines, b.text ≠ "" ∧ ∀ l ∈ b.raw, isDelim l = false := by
  induction lines with
  | nil =>
    intro buf hbuf b hb
    exact flushBuf_wf buf hbuf b hb
  | cons ln rest ih =>
    intro buf hbuf b hb
    simp only [parseAux] at hb
    by_cases hd : isDelim ln
    · rw [if_pos hd] at hb
      rcases List.mem_append.mp hb with h1 | h2
      · exact flushBuf_wf buf hbuf b h1
      · exact ih [] (by simp) b h2
    · rw [if_neg hd] at hb
      refine ih (buf ++ [ln]) ?_ b hb
      intro l hl
      rcases List.mem_append.mp hl with h1 | h2
      · exact hbuf l h1
      · rw [List.mem_singleton.mp h2]
        exact eq_false_of_ne_true hd

theorem parseAux_all_blank (lines : List String) :
    ∀ (buf : List String),
      (∀ l ∈ lines, isDelim l = true ∨ pyStrip l = "") →
      (∀ l ∈ buf, pyStrip l = "") →
      parseAux buf lines = [] := by
  induction lines with
  | nil =>
    intro buf _ hbuf
    simp [parseAux, flushBuf, normalize_of_all_blank buf hbuf]
  | cons ln rest ih =>
    intro buf hlines hbuf
    simp only [parseAux]
    by_cases hd : isDelim ln
    · rw [if_pos hd, ih [] (fun l hl => hlines l (List.mem_cons_of_mem _ hl)) (by simp)]
      simp [flushBuf, normalize_of_all_blank buf hbuf]
    · rw [if_neg hd]
      refine ih (buf ++ [ln]) (fun l hl => hlines l (List.mem_cons_of_mem _ hl)) ?_
      intro l hl
      rcases List.mem_append.mp hl with h1 | h2
      · exact hbuf l h1
      · rw [List.mem_singleton.mp h2]
        rcases hlines ln (List.mem_cons_self _ _) with h | h
        · exact absurd h (by simpa using hd)
        · exact h

theorem flushBuf_nil : flushBuf [] = [] := by
  simp [flushBuf]

theorem parseAux_no_delim (A : List String) (hA : ∀ l ∈ A, isDelim l = false) :
    ∀ buf, parseAux buf A = flushBuf (buf ++ A) := by
  induction A with
  | nil =>
    intro buf
    rw [List.append_nil]
    rfl
  | cons a A ihA =>
    intro buf
    rw [parseAux_cons_nondelim buf a A (hA a (List.mem_cons_self _ _)),
      ihA (fun l hl => hA l (List.mem_cons_of_mem _ hl)) (buf ++ [a]),
      List.append_assoc, List.singleton_append]

theorem parseAux_concat_delim (d : String) (hd : isDelim d = true) :
    ∀ (X : List String) (buf), parseAux buf (X ++ [d]) = parseAux buf X := by
  intro X
  induction X with
  | nil =>
    intro buf
    rw [List.nil_append, parseAux_cons_delim buf d [] hd]
    show flushBuf buf ++ flushBuf [] = flushBuf buf
    rw [flushBuf_nil, List.append_nil]
  | cons x X ihX =>
    intro buf
    by_cases hx : isDelim x
    · rw [List.cons_append, parseAux_cons_delim buf x (X ++ [d]) hx, ihX [],
        parseAux_cons_delim buf x X hx]
    · rw [List.cons_append, parseAux_cons_nondelim buf x (X ++ [d]) (eq_false_of_ne_true hx),
        ihX (buf ++ [x]), parseAux_cons_nondelim buf x X (eq_false_of_ne_true hx)]

theorem parseAux_split_delim (d : String) (hd : isDelim d = true) :
    ∀ (X Z : List String) (buf),
      parseAux buf (X ++ d :: Z) = parseAux buf (X ++ [d]) ++ parseAux [] Z := by
  intro X
  induction X with
  | nil =>
    intro Z buf
    rw [List.nil_append, List.nil_append, parseAux_cons_delim buf d Z hd,
      parseAux_cons_delim buf d [] hd]
    show flushBuf buf ++ parseAux [] Z = (flushBuf buf ++ flushBuf []) ++ parseAux [] Z
    rw [flushBuf_nil, List.append_nil]
  | cons x X ihX =>
    intro Z buf
    by_cases hx : isDelim x
    · rw [List.cons_append, parseAux_cons_delim buf x (X ++ d :: Z) hx, ihX Z [],
        List.cons_append, parseAux_cons_delim buf x (X ++ [d]) hx, List.append_assoc]
    · rw [List.cons_append, parseAux_cons_nondelim buf x (X ++ d :: Z) (eq_false_of_ne_true hx),
        ihX Z (buf ++ [x]), List.cons_append,
        parseAux_cons_nondelim buf x (X ++ [d]) (eq_false_of_ne_true hx)]

/-! ### `delete_block` lemmas -/

theorem findBlockIdx_spec (lines raw : List String) (i : Nat)
    (h : findBlockIdx lines raw = some i) :
    i + raw.length ≤ lines.length ∧ (lines.drop i).take raw.length = raw := by
  rw [findBlockIdx] at h
  split at h
  · rename_i hle
    have hmem := List.mem_of_find?_eq_some h
    have hp := List.find?_some h
    rw [List.mem_range] at hmem
    refine ⟨by omega, by simpa using hp⟩
  · exact absurd h (by simp)

theorem findBlockIdx_eq_none (lines raw : List String)
    (h : ¬ ∃ i, i + raw.length ≤ lines.length ∧ (lines.drop i).take raw.length = raw) :
    findBlockIdx lines raw = none := by
  cases hfi : findBlockIdx lines raw with
  | none => rfl
  | some i =>
    obtain ⟨h1, h2⟩ := findBlockIdx_spec lines raw i hfi
    exact absurd ⟨i, h1, h2⟩ h

theorem delete_block_file_of_none (lines raw : List String)
    (h : findBlockIdx lines raw = none) :
    delete_block_file lines raw = lines ∧ delete_block lines raw = lines := by
  constructor
  · rw [delete_block_file, h]
  · rw [delete_block, h]

/-! ### Claim C5 -/

/-- Claim C5, counterexample to the claim as frozen.  First input: no
line of `["A", " --- ", "B"]` is exactly `---`, so "splits only on lines
that are exactly the delimiter token `---`" demands a single block, yet
the code splits on the stripped line `" --- "` and yields two blocks.
Second input: the maximal run `["   "]` before the delimiter does not
become a block, contradicting "each maximal run of lines between
delimiters becomes one block". -/
theorem C5_counterexample :
    ((∀ l ∈ ["A", " --- ", "B"], l ≠ "---") ∧
      loadBlocksLines ["A", " --- ", "B"] = [⟨"A", ["A"]⟩, ⟨"B", ["B"]⟩]) ∧
    loadBlocksLines ["   ", "---", "A"] = [⟨"A", ["A"]⟩] := by
  decide

/-- Claim C5 (amended): parsing splits on lines that *strip* to the
delimiter token `---`; each maximal run of lines between delimiters that
contains a non-blank line becomes one block retaining its raw lines
verbatim, with normalized text equal to the trimmed non-blank lines
joined by single spaces (blank-only runs yield no block); e.g. blocks
`"A\nB"` and `"C"` joined by the delimiter parse to two blocks with
normalized texts `"A B"` and `"C"`. -/
theorem C5_parse_contract :
    (∀ lines : List String, loadBlocksLines lines = parse_spec lines) ∧
    loadBlocksLines ["A", "B", "---", "C"] =
      [⟨"A B", ["A", "B"]⟩, ⟨"C", ["C"]⟩] := by
  exact ⟨loadBlocksLines_eq_parse_spec, by decide⟩

/-! ### Claim C10 -/

/-- Claim C10: every parsed block has non-empty normalized text and none
of its raw lines is a delimiter line; blank-only runs are dropped rather
than returned as empty blocks, and parsing an entirely blank or
delimiter-only file is an error. -/
theorem C10_parsed_blocks_wellformed (lines : List String) :
    (∀ b ∈ loadBlocksLines lines, b.text ≠ "" ∧ ∀ l ∈ b.raw, isDelim l = false) ∧
    ((∀ l ∈ lines, isDelim l = true ∨ pyStrip l = "") →
      ∃ e, load_blocks lines = .error e) := by
  constructor
  · exact parseAux_wf lines [] (by simp)
  · intro hbl
    have hempty : loadBlocksLines lines = [] :=
      parseAux_all_blank lines [] hbl (by simp)
    rw [load_blocks]
    simp only [hempty, if_pos rfl]
    exact ⟨_, rfl⟩

/-- Claim C10, witness: the invariants at the concrete file
`["A", "---", "  "]`, and the error on the blank/delimiter-only file
`["---", "  "]`. -/
theorem C10_witness :
    (∀ b ∈ loadBlocksLines ["A", "---", "  "],
      b.text ≠ "" ∧ ∀ l ∈ b.raw, isDelim l = false) ∧
    ∃ e, load_blocks ["---", "  "] = .error e :=
  ⟨(C10_parsed_blocks_wellformed ["A", "---", "  "]).1,
    (C10_parsed_blocks_wellformed ["---", "  "]).2 (by decide)⟩

/-! ### Claim C9 -/

/-- Claim C9: when the file contains no contiguous run of lines equal
element-for-element to `raw_block`, `delete_block` is a no-op: the file
is left unchanged (nothing is written; only a warning is printed), both
at the file level and at the line-splice level. -/
theorem C9_delete_missing_noop (lines raw : List String)
    (h : ¬ ∃ i, i + raw.length ≤ lines.length ∧ (lines.drop i).take raw.length = raw) :
    delete_block_file lines raw = lines ∧ delete_block lines raw = lines :=
  delete_block_file_of_none lines raw (findBlockIdx_eq_none lines raw h)

/-- Claim C9, witness: deleting the absent block `["Z"]` from
`["A", "---", "B"]` leaves the file unchanged. -/
theorem C9_witness :
    delete_block_file ["A", "---", "B"] ["Z"] = ["A", "---", "B"] ∧
    delete_block ["A", "---", "B"] ["Z"] = ["A", "---", "B"] :=
  C9_delete_missing_noop ["A", "---", "B"] ["Z"] (by
    rintro ⟨i, hle, heq⟩
    have hi : i < 3 := by simp at hle; omega
    interval_cases i <;> revert heq <;> decide)

/-! ### Claim C2 -/

/-- Claim C2, counterexample to the claim as frozen.  In the file
`["A", "---", "X", "A", "Y"]` the first deletion of `raw_block = ["A"]`
succeeds and removes the first block and the delimiter, leaving
`["X", "A", "Y"]` — a single block whose text is `"X A Y"`.  The second
call with the same `raw_block` is not a no-op: it matches the line `"A"`
inside that different block and deletes it, corrupting the file to
`["X", "Y"]`. -/
theorem C2_counterexample :
    delete_block_file ["A", "---", "X", "A", "Y"] ["A"] = ["X", "A", "Y"] ∧
    loadBlocksLines ["X", "A", "Y"] = [⟨"X A Y", ["X", "A", "Y"]⟩] ∧
    delete_block_file ["X", "A", "Y"] ["A"] = ["X", "Y"] ∧
    delete_block_file ["X", "A", "Y"] ["A"] ≠ ["X", "A", "Y"] := by
  decide

/-- Claim C2 (amended): after one successful deletion of `raw_block`,
calling `delete_block` again with the same `raw_block` leaves the file
unchanged *provided the file left by the first call no longer contains
any contiguous run of lines equal to `raw_block`*; when identical content
survives elsewhere (a repeated block, or the run as a sub-run of another
block), the second call deletes that other occurrence instead. -/
theorem C2_delete_twice_noop (lines raw : List String)
    (hfirst : (findBlockIdx lines raw).isSome = true)
    (hgone : ¬ ∃ i, i + raw.length ≤ (delete_block_file lines raw).length ∧
      ((delete_block_file lines raw).drop i).take raw.length = raw) :
    delete_block_file (delete_block_file lines raw) raw = delete_block_file lines raw :=
  (delete_block_file_of_none (delete_block_file lines raw) raw
    (findBlockIdx_eq_none (delete_block_file lines raw) raw hgone)).1

/-- Claim C2, witness: in `["A", "---", "B"]` the block `["A"]` occurs
once; after its deletion the file is `["B"]` and a second deletion is a
no-op. -/
theorem C2_witness :
    delete_block_file (delete_block_file ["A", "---", "B"] ["A"]) ["A"] =
      delete_block_file ["A", "---", "B"] ["A"] :=
  C2_delete_twice_noop ["A", "---", "B"] ["A"] (by decide) (by
    rintro ⟨i, hle, heq⟩
    have hfile : delete_block_file ["A", "---", "B"] ["A"] = ["B"] := by decide
    rw [hfile] at hle heq
    have hi : i < 1 := by simp at hle; omega
    interval_cases i <;> revert heq <;> decide)

/-! ### Claim C3 -/

/-- Claim C3, counterexample to the claim as frozen.  The file
`["A", "B", "---", "C"]` contains a contiguous run equal to
`raw_block = ["A"]` (a strict sub-run of the block `"A B"`), and no block
of the file has raw lines `["A"]`.  The claim demands that the matched
run plus exactly one adjacent delimiter be removed and that all other
blocks re-parse unchanged; instead the code removes no delimiter at all
(the delimiter count is unchanged) and the block `"A B"` — an "other"
block — re-parses as `"B"`. -/
theorem C3_counterexample :
    (findBlockIdx ["A", "B", "---", "C"] ["A"]).isSome = true ∧
    (∀ b ∈ loadBlocksLines ["A", "B", "---", "C"], b.raw ≠ ["A"]) ∧
    delete_block_file ["A", "B", "---", "C"] ["A"] = ["B", "---", "C"] ∧
    ((delete_block_file ["A", "B", "---", "C"] ["A"]).filter isDelim).length =
      ((["A", "B", "---", "C"] : List String).filter isDelim).length ∧
    loadBlocksLines (delete_block_file ["A", "B", "---", "C"] ["A"]) ≠
      loadBlocksLines ["A", "B", "---", "C"] := by
  decide

/-- Claim C3 (amended): when the *first* contiguous match of `raw_block`
(at index `P.length`, after prefix `P` and before suffix `S`) is
delimiter-bounded — `P` is empty or ends with a delimiter line, `S` is
empty or starts with one — and `raw_block` is a delimiter-free run with
non-blank content, and the written file is stable under the
`write_lines`/`read_lines` round trip, then `delete_block` removes
exactly the matched run plus exactly one adjacent delimiter when one
exists (the one just before the match if present, otherwise the one just
after), and re-parsing the resulting file yields exactly the original
block sequence with the matched block removed: all other blocks
unchanged and in the same order. -/
theorem C3_delete_block_excises_block (P raw S : List String)
    (hfind : findBlockIdx (P ++ (raw ++ S)) raw = some P.length)
    (hraw : ∀ l ∈ raw, isDelim l = false)
    (hnb : normalize raw ≠ "")
    (hP : P = [] ∨ ∃ Q d, P = Q ++ [d] ∧ isDelim d = true)
    (hS : S = [] ∨ ∃ d T, S = d :: T ∧ isDelim d = true)
    (hstable : persistLines (delete_block (P ++ (raw ++ S)) raw) =
      delete_block (P ++ (raw ++ S)) raw) :
    delete_block (P ++ (raw ++ S)) raw =
      P.dropLast ++ (if P.isEmpty then S.tail else S) ∧
    ∃ B1 B2,
      loadBlocksLines (P ++ (raw ++ S)) = B1 ++ ⟨normalize raw, raw⟩ :: B2 ∧
      loadBlocksLines (delete_block_file (P ++ (raw ++ S)) raw) = B1 ++ B2 := by
  have hrawne : raw ≠ [] := by
    intro h
    rw [h, normalize_nil] at hnb
    exact hnb rfl
  have hflush : flushBuf raw = [⟨normalize raw, raw⟩] := by
    rw [flushBuf, if_neg hrawne, if_neg hnb]
  have hrawblocks : parseAux [] raw = [⟨normalize raw, raw⟩] := by
    rw [parseAux_no_delim raw hraw [], List.nil_append, hflush]
  have hfile : delete_block_file (P ++ (raw ++ S)) raw = delete_block (P ++ (raw ++ S)) raw := by
    simp only [delete_block_file, hfind]
    exact hstable
  rcases hP with rfl | ⟨Q, d, rfl, hd⟩
  · -- the match starts at the beginning of the file
    have hdel : delete_block ([] ++ (raw ++ S)) raw = S.tail := by
      simp only [delete_block, hfind]
      simp only [List.length_nil, List.nil_append, Nat.zero_add, List.take_zero]
      rw [if_neg (by simp)]
      rcases hS with rfl | ⟨dC, T, rfl, hdC⟩
      · rw [if_neg (by simp)]
        simp
      · have hc2 : raw.length < (raw ++ dC :: T).length ∧
            isDelim ((raw ++ dC :: T).getD raw.length "") = true := by
          constructor
          · simp
          · rw [List.getD_append_right raw (dC :: T) "" raw.length le_rfl, Nat.sub_self,
              List.getD_cons_zero]
            exact hdC
        rw [if_pos hc2]
        have hsh : raw ++ dC :: T = (raw ++ [dC]) ++ T := by
          rw [List.append_assoc, List.singleton_append]
        rw [hsh, List.drop_left' (by simp)]
        rfl
    refine ⟨?_, ?_⟩
    · rw [hdel]
      simp
    · rcases hS with rfl | ⟨dC, T, rfl, hdC⟩
      · refine ⟨[], [], ?_, ?_⟩
        · simp only [List.nil_append, List.append_nil]
          rw [loadBlocksLines, hrawblocks]
        · rw [hfile, hdel]
          rfl
      · refine ⟨[], parseAux [] T, ?_, ?_⟩
        · simp only [List.nil_append]
          rw [loadBlocksLines, parseAux_split_delim dC hdC raw T [],
            parseAux_concat_delim dC hdC raw [], hrawblocks]
          rfl
        · rw [hfile, hdel]
          rfl
  · -- the match is preceded by a delimiter
    have hgd : (((Q ++ [d]) ++ (raw ++ S)).getD ((Q ++ [d]).length - 1) "") = d := by
      have h1 : (Q ++ [d]).length - 1 = Q.length := by simp
      rw [h1, List.append_assoc, List.singleton_append,
        List.getD_append_right Q (d :: (raw ++ S)) "" Q.length le_rfl, Nat.sub_self,
        List.getD_cons_zero]
    have hcond : 0 < (Q ++ [d]).length ∧
        isDelim (((Q ++ [d]) ++ (raw ++ S)).getD ((Q ++ [d]).length - 1) "") = true :=
      ⟨by simp, by rw [hgd]; exact hd⟩
    have htake : List.take ((Q ++ [d]).length - 1) ((Q ++ [d]) ++ (raw ++ S)) = Q := by
      have h1 : (Q ++ [d]).length - 1 = Q.length := by simp
      rw [h1, List.append_assoc, List.singleton_append]
      exact List.take_left' rfl
    have hdrop : List.drop ((Q ++ [d]).length + raw.length) ((Q ++ [d]) ++ (raw ++ S)) = S := by
      rw [← List.length_append (Q ++ [d]) raw, ← List.append_assoc]
      exact List.drop_left _ _
    have hdel : delete_block ((Q ++ [d]) ++ (raw ++ S)) raw = Q ++ S := by
      simp only [delete_block, hfind]
      rw [if_pos hcond, htake, hdrop]
    have horig : loadBlocksLines ((Q ++ [d]) ++ (raw ++ S)) =
        parseAux [] Q ++ parseAux [] (raw ++ S) := by
      have hsh : (Q ++ [d]) ++ (raw ++ S) = Q ++ (d :: (raw ++ S)) := by
        rw [List.append_assoc, List.singleton_append]
      rw [loadBlocksLines, hsh, parseAux_split_delim d hd Q (raw ++ S) [],
        parseAux_concat_delim d hd Q []]
    refine ⟨?_, ?_⟩
    · rw [hdel, List.dropLast_concat]
      have hne : (Q ++ [d]).isEmpty = false := by simp
      rw [hne]
      simp
    · rcases hS with rfl | ⟨dC, T, rfl, hdC⟩
      · refine ⟨parseAux [] Q, [], ?_, ?_⟩
        · rw [horig, List.append_nil, hrawblocks]
        · rw [hfile, hdel, List.append_nil, List.append_nil]
          rfl
      · refine ⟨parseAux [] Q, parseAux [] T, ?_, ?_⟩
        · rw [horig, parseAux_split_delim dC hdC raw T [],
            parseAux_concat_delim dC hdC raw [], hrawblocks]
          rfl
        · rw [hfile, hdel, loadBlocksLines, parseAux_split_delim dC hdC Q T [],
            parseAux_concat_delim dC hdC Q []]

/-- Claim C3, witness: in `["X", "---", "A", "---", "B"]` the block
`["A"]` is delimiter-bounded; deleting it removes the run and the
delimiter before it, and the file re-parses to the blocks `"X"` and
`"B"`. -/
theorem C3_witness :
    delete_block (["X", "---"] ++ (["A"] ++ ["---", "B"])) ["A"] =
      (["X", "---"] : List String).dropLast ++
        (if (["X", "---"] : List String).isEmpty then
          (["---", "B"] : List String).tail
        else ["---", "B"]) ∧
    ∃ B1 B2,
      loadBlocksLines (["X", "---"] ++ (["A"] ++ ["---", "B"])) =
        B1 ++ ⟨normalize ["A"], ["A"]⟩ :: B2 ∧
      loadBlocksLines (delete_block_file (["X", "---"] ++ (["A"] ++ ["---", "B"])) ["A"]) =
        B1 ++ B2 :=
  C3_delete_block_excises_block ["X", "---"] ["A"] ["---", "B"] (by decide) (by decide)
    (by decide) (Or.inr ⟨["X"], "---", rfl, by decide⟩)
    (Or.inr ⟨"---", ["B"], rfl, by decide⟩) (by decide)

/-! ### Claim C1 -/

/-- Claim C1 is refuted by the code: the greedy random pick loop can
exhaust the candidate pool before reaching `slot_count` picks even when
`slot_count ≤ floor(span/min_gap) + 1`.  For the window 06:00-06:59
(span 60), `min_gap = 30` and `slot_count = 3`, the feasibility check
passes (`60 / 30 + 1 = 3`), yet at most two minutes of that window can
be pairwise 30 apart, so every oracle — here the one that always picks
the first candidate — yields fewer than 3 slots, contradicting both the
spec and the code's own comment "Should always reach SLOTS_PER_DAY given
the feasibility check above". -/
theorem C1_planner_shortfall :
    3 ≤ ((6 * 60 + 59) - 6 * 60 + 1) / 30 + 1 ∧
    plan_slots_for_today 6 6 3 30 [0, 0, 0] = .ok ["06:00", "06:30"] :=
  ⟨by decide, by rfl⟩

/-! ### Claim C4 -/

/-- Claim C4: when `slot_count` exceeds
`floor(window_span_minutes / min_gap_minutes) + 1` the planner fails
fast with the descriptive `ValueError` before any generation, and no
state is written: `ensure_plan` either propagates the error or returns
the input state unsaved.  (`sh ≤ eh` and `0 < gap` keep the natural-
number model aligned with the Python arithmetic.) -/
theorem C4_infeasible_fails_fast (sh eh slots gap : Nat) (oracle : List Nat)
    (hse : sh ≤ eh) (hg : 0 < gap)
    (hover : ((eh * 60 + 59) - sh * 60 + 1) / gap + 1 < slots) :
    plan_slots_for_today sh eh slots gap oracle =
      .error (planErrMsg sh eh slots gap (((eh * 60 + 59) - sh * 60 + 1) / gap + 1)) ∧
    ∀ (today : String) (state : BotState),
      ensure_plan sh eh slots gap oracle today state =
        .error (planErrMsg sh eh slots gap (((eh * 60 + 59) - sh * 60 + 1) / gap + 1)) ∨
      ensure_plan sh eh slots gap oracle today state = .ok (state, false) := by
  have h1 : plan_slots_for_today sh eh slots gap oracle =
      .error (planErrMsg sh eh slots gap (((eh * 60 + 59) - sh * 60 + 1) / gap + 1)) := by
    simp only [plan_slots_for_today]
    rw [if_pos hover]
  refine ⟨h1, ?_⟩
  intro today state
  by_cases hc : state.date ≠ some today ∨ state.planned = []
  · left
    simp only [ensure_plan, if_pos hc, h1]
  · right
    simp only [ensure_plan, if_neg hc]

/-- Claim C4, witness: 4 slots at 30-minute gaps do not fit in the
window 06:00-06:59 (max 3), so planning fails and a fresh state is left
unwritten. -/
theorem C4_witness :
    plan_slots_for_today 6 6 4 30 [] = .error (planErrMsg 6 6 4 30 3) ∧
    (ensure_plan 6 6 4 30 [] "2026-10-12" ⟨none, [], [], []⟩ =
        .error (planErrMsg 6 6 4 30 3) ∨
      ensure_plan 6 6 4 30 [] "2026-10-12" ⟨none, [], [], []⟩ =
        .ok (⟨none, [], [], []⟩, false)) :=
  ⟨(C4_infeasible_fails_fast 6 6 4 30 [] (by decide) (by decide) (by decide)).1,
    (C4_infeasible_fails_fast 6 6 4 30 [] (by decide) (by decide) (by decide)).2
      "2026-10-12" ⟨none, [], [], []⟩⟩

/-! ### Claim C6 -/

/-- Claim C6: the daily plan is regenerated iff the stored date differs
from today or no plan is stored; a regenerated state carries today's
date, the fresh plan, an empty posted set and the carried-over log
(discarding the previous plan), and is saved; otherwise the stored state
is returned unchanged and unsaved. -/
theorem C6_ensure_plan_regen (sh eh slots gap : Nat) (oracle : List Nat)
    (today : String) (state : BotState) :
    (state.date = some today → state.planned ≠ [] →
      ensure_plan sh eh slots gap oracle today state = .ok (state, false)) ∧
    ((state.date ≠ some today ∨ state.planned = []) →
      ∀ ps, plan_slots_for_today sh eh slots gap oracle = .ok ps →
        ensure_plan sh eh slots gap oracle today state =
          .ok ({ date := some today, planned := ps, posted := [], log := state.log },
            true)) := by
  constructor
  · intro hd hp
    have hc : ¬ (state.date ≠ some today ∨ state.planned = []) := by
      push_neg
      exact ⟨by simp [hd], hp⟩
    simp only [ensure_plan, if_neg hc]
  · intro hc ps hps
    simp only [ensure_plan, if_pos hc, hps]

/-- Claim C6, witness: a state dated yesterday is regenerated with
today's date, the fresh plan, and an empty posted set, and an up-to-date
state is kept unchanged. -/
theorem C6_witness :
    ensure_plan 6 6 2 30 [0, 0] "2026-10-12"
        ⟨some "2026-10-11", ["09:00"], ["09:00"], []⟩ =
      .ok (⟨some "2026-10-12", ["06:00", "06:30"], [], []⟩, true) ∧
    ensure_plan 6 6 2 30 [0, 0] "2026-10-12"
        ⟨some "2026-10-12", ["09:00"], ["09:00"], []⟩ =
      .ok (⟨some "2026-10-12", ["09:00"], ["09:00"], []⟩, false) :=
  ⟨(C6_ensure_plan_regen 6 6 2 30 [0, 0] "2026-10-12"
      ⟨some "2026-10-11", ["09:00"], ["09:00"], []⟩).2
      (by left; decide) ["06:00", "06:30"] (by rfl),
    (C6_ensure_plan_regen 6 6 2 30 [0, 0] "2026-10-12"
      ⟨some "2026-10-12", ["09:00"], ["09:00"], []⟩).1 rfl (by decide)⟩

/-! ### Claim C7 -/

theorem findDueAux_sound (posted : List String) (W now : Nat) :
    ∀ planned : List String,
      (∀ s ∈ planned, (parseHM s).isSome = true) →
      planned.Pairwise (fun a b => (parseHM a).getD 0 ≤ (parseHM b).getD 0) →
      (findDueAux posted W now planned = .ok none →
        ∀ s ∈ planned, s ∉ posted → ¬ dueAt W now ((parseHM s).getD 0)) ∧
      (∀ s, findDueAux posted W now planned = .ok (some s) →
        s ∈ planned ∧ s ∉ posted ∧ dueAt W now ((parseHM s).getD 0) ∧
        ∀ s' ∈ planned, s' ∉ posted → dueAt W now ((parseHM s').getD 0) →
          (parseHM s).getD 0 ≤ (parseHM s').getD 0) := by
  intro planned
  induction planned with
  | nil =>
    intro _ _
    constructor
    · intro _ s hs
      exact absurd hs (List.not_mem_nil s)
    · intro s h
      simp [findDueAux] at h
  | cons slot rest ih =>
    intro hwf hsort
    have hwf_head : (parseHM slot).isSome = true := hwf slot (List.mem_cons_self _ _)
    have hwf_rest : ∀ s ∈ rest, (parseHM s).isSome = true :=
      fun s hs => hwf s (List.mem_cons_of_mem _ hs)
    rw [List.pairwise_cons] at hsort
    obtain ⟨hrel, hsort'⟩ := hsort
    obtain ⟨IH1, IH2⟩ := ih hwf_rest hsort'
    by_cases hpost : slot ∈ posted
    · simp only [findDueAux, if_pos hpost]
      constructor
      · intro h s hs hsp
        rcases List.mem_cons.mp hs with rfl | hs'
        · exact absurd hpost hsp
        · exact IH1 h s hs' hsp
      · intro s h
        obtain ⟨h1, h2, h3, h4⟩ := IH2 s h
        refine ⟨List.mem_cons_of_mem _ h1, h2, h3, ?_⟩
        intro s' hs' hsp' hdue'
        rcases List.mem_cons.mp hs' with rfl | hs''
        · exact absurd hpost hsp'
        · exact h4 s' hs'' hsp' hdue'
    · obtain ⟨t, ht⟩ := Option.isSome_iff_exists.mp hwf_head
      simp only [findDueAux, if_neg hpost, ht]
      have htD : (parseHM slot).getD 0 = t := by rw [ht]; rfl
      by_cases hdue : dueAt W now t
      · simp only [if_pos hdue]
        constructor
        · intro h
          exact absurd h (by simp)
        · intro s h
          have hs : s = slot := by
            have := Except.ok.inj h
            exact (Option.some.inj this).symm
          subst hs
          refine ⟨List.mem_cons_self _ _, hpost, htD ▸ hdue, ?_⟩
          intro s' hs' _ _
          rcases List.mem_cons.mp hs' with rfl | hs''
          · exact le_rfl
          · exact htD ▸ hrel s' hs''
      · simp only [if_neg hdue]
        constructor
        · intro h s hs hsp
          rcases List.mem_cons.mp hs with rfl | hs'
          · exact htD ▸ hdue
          · exact IH1 h s hs' hsp
        · intro s h
          obtain ⟨h1, h2, h3, h4⟩ := IH2 s h
          refine ⟨List.mem_cons_of_mem _ h1, h2, h3, ?_⟩
          intro s' hs' hsp' hdue'
          rcases List.mem_cons.mp hs' with rfl | hs''
          · exact absurd (htD ▸ hdue') hdue
          · exact h4 s' hs'' hsp' hdue'

/-- Claim C7: over a state whose planned list is sorted ascending (and
whose slots are well-formed times), `find_due_slot` returns the earliest
planned slot that is not posted and whose window
`[slot_time, slot_time + W]` contains `now`, or `none` when no such slot
exists; a single `Option`al slot is produced per invocation even when
several are due. -/
theorem C7_find_due_slot_earliest (W now : Nat) (state : BotState)
    (hwf : ∀ s ∈ state.planned, (parseHM s).isSome = true)
    (hsort : state.planned.Pairwise (fun a b => (parseHM a).getD 0 ≤ (parseHM b).getD 0)) :
    (find_due_slot W now state = .ok none →
      ∀ s ∈ state.planned, s ∉ state.posted → ¬ dueAt W now ((parseHM s).getD 0)) ∧
    (∀ s, find_due_slot W now state = .ok (some s) →
      s ∈ state.planned ∧ s ∉ state.posted ∧ dueAt W now ((parseHM s).getD 0) ∧
      ∀ s' ∈ state.planned, s' ∉ state.posted → dueAt W now ((parseHM s').getD 0) →
        (parseHM s).getD 0 ≤ (parseHM s').getD 0) :=
  findDueAux_sound state.posted W now state.planned hwf hsort

/-- Claim C7, witness: with plan `["06:00", "07:00", "07:30"]`, slot
`06:00` posted, and `now` at 07:35 with a 40-minute window, both
`07:00` and `07:30` are due and the earlier `07:00` is returned; its
properties follow by applying the theorem. -/
theorem C7_witness :
    find_due_slot 40 455 ⟨some "2026-10-12", ["06:00", "07:00", "07:30"], ["06:00"], []⟩ =
      .ok (some "07:00") ∧
    "07:00" ∈ ["06:00", "07:00", "07:30"] ∧ "07:00" ∉ ["06:00"] ∧
      dueAt 40 455 ((parseHM "07:00").getD 0) ∧
      ∀ s' ∈ ["06:00", "07:00", "07:30"], s' ∉ ["06:00"] →
        dueAt 40 455 ((parseHM s').getD 0) →
        (parseHM "07:00").getD 0 ≤ (parseHM s').getD 0 :=
  ⟨by rfl,
    (C7_find_due_slot_earliest 40 455
      ⟨some "2026-10-12", ["06:00", "07:00", "07:30"], ["06:00"], []⟩
      (by decide) (by decide)).2 "07:00" (by rfl)⟩

/-! ### Claim C8 -/

theorem post_random_block_failure_stops (nowIso : String) (r0 : Option String)
    (hr : isFailureRes r0 = true) :
    ∀ (fuel k : Nat) (rand : List Nat) (rest : List (Option String))
      (state : BotState) (blocks : List Block) (tf : List String),
      (post_random_block nowIso fuel rand
          (List.replicate k (some "DUPLICATE") ++ r0 :: rest) state blocks tf).res =
        none ∧
      (post_random_block nowIso fuel rand
          (List.replicate k (some "DUPLICATE") ++ r0 :: rest) state blocks tf).state =
        state ∧
      (post_random_block nowIso fuel rand
          (List.replicate k (some "DUPLICATE") ++ r0 :: rest) state blocks tf).attempts ≤
        k + 1 := by
  intro fuel
  induction fuel with
  | zero =>
    intro k rand rest state blocks tf
    exact ⟨rfl, rfl, Nat.zero_le _⟩
  | succ fuel ih =>
    intro k rand rest state blocks tf
    cases blocks with
    | nil => exact ⟨rfl, rfl, Nat.zero_le _⟩
    | cons b bs =>
      cases k with
      | zero =>
        cases hr0 : r0 with
        | none =>
          subst hr0
          exact ⟨rfl, rfl, le_rfl⟩
        | some s =>
          subst hr0
          rw [isFailureRes] at hr
          rw [Bool.and_eq_true, Bool.not_eq_true', Bool.not_eq_true'] at hr
          obtain ⟨hs1, hs2⟩ := hr
          have hs1' : ¬ s = "DUPLICATE" := by
            intro hcon
            rw [hcon] at hs1
            simp at hs1
          simp only [post_random_block, List.replicate_zero, List.nil_append,
            List.headD_cons, if_neg hs1', hs2, Bool.false_eq_true, if_false]
          exact ⟨trivial, trivial, by omega⟩
      | succ k' =>
        obtain ⟨ih1, ih2, ih3⟩ := ih k' rand.tail rest state
          ((b :: bs).eraseIdx (rand.headD 0 % (b :: bs).length))
          (delete_block_file tf ((b :: bs).getD (rand.headD 0 % (b :: bs).length) ⟨"", []⟩).raw)
        simp only [post_random_block, List.replicate_succ, List.cons_append,
          List.headD_cons, List.tail_cons, if_pos rfl, if_true]
        exact ⟨ih1, ih2, by omega⟩

/-- Claim C8: when a submission attempt returns a failure other than the
duplicate-content rejection — after any number of preceding duplicate
rejections — the posting loop stops immediately (no further attempts
beyond that failing one), returns no id, leaves the state untouched, and
`main` does not add the due slot to the posted set (the slot stays
pending). -/
theorem C8_failure_stops_run (due nowIso : String) (rand : List Nat)
    (state : BotState) (blocks : List Block) (tf : List String)
    (k : Nat) (rest : List (Option String)) (r0 : Option String)
    (hr : isFailureRes r0 = true) :
    (runDueSlot due nowIso rand (List.replicate k (some "DUPLICATE") ++ r0 :: rest)
        state blocks tf).1 = state ∧
    (runDueSlot due nowIso rand (List.replicate k (some "DUPLICATE") ++ r0 :: rest)
        state blocks tf).2.res = none ∧
    (runDueSlot due nowIso rand (List.replicate k (some "DUPLICATE") ++ r0 :: rest)
        state blocks tf).2.attempts ≤ k + 1 := by
  obtain ⟨h1, h2, h3⟩ := post_random_block_failure_stops nowIso r0 hr blocks.length k
    rand rest state blocks tf
  simp only [runDueSlot, h1]
  exact ⟨h2, trivial, h3⟩

/-- Claim C8, witness: two blocks, one duplicate rejection followed by a
hard failure: the run returns no id, makes exactly two attempts, does not
touch the state, and the due slot `"07:00"` is not marked posted. -/
theorem C8_witness :
    (runDueSlot "07:00" "t" [0, 0] (List.replicate 1 (some "DUPLICATE") ++ none :: [])
        ⟨some "2026-10-12", ["07:00"], [], []⟩
        [⟨"A", ["A"]⟩, ⟨"B", ["B"]⟩] ["A", "---", "B"]).1 =
      ⟨some "2026-10-12", ["07:00"], [], []⟩ ∧
    (runDueSlot "07:00" "t" [0, 0] (List.replicate 1 (some "DUPLICATE") ++ none :: [])
        ⟨some "2026-10-12", ["07:00"], [], []⟩
        [⟨"A", ["A"]⟩, ⟨"B", ["B"]⟩] ["A", "---", "B"]).2.res = none ∧
    (runDueSlot "07:00" "t" [0, 0] (List.replicate 1 (some "DUPLICATE") ++ none :: [])
        ⟨some "2026-10-12", ["07:00"], [], []⟩
        [⟨"A", ["A"]⟩, ⟨"B", ["B"]⟩] ["A", "---", "B"]).2.attempts ≤ 1 + 1 :=
  C8_failure_stops_run "07:00" "t" [0, 0]
    ⟨some "2026-10-12", ["07:00"], [], []⟩
    [⟨"A", ["A"]⟩, ⟨"B", ["B"]⟩] ["A", "---", "B"] 1 [] none rfl

end IctQuoteBot

